import Mathlib

/-!
# GoogleDriveAPI: the credential lifecycle of `api.go`

A shallow embedding of `src/api.go`.  The Go program talks to the file system,
the console, the OAuth token endpoint and the Drive API; here the process state
those calls read and write is an explicit `World`, and the answers of the
libraries the program calls (`encoding/json`, `golang.org/x/oauth2`,
`google.golang.org/api/drive/v3`) are the fields of an `Env`.  A call that can
end the process (`log.Fatalf`, a nil dereference) returns a `Res`.
-/

namespace GoogleDriveAPI

/-! ## Data model -/

/-- The `oauth2.Config` built by `google.ConfigFromJSON`. -/
structure Config where
  ClientID : String
  ClientSecret : String
  AuthURL : String
  TokenURL : String
  Scopes : List String
deriving DecidableEq

/-- The exported fields of `oauth2.Token`.  `Expiry` is a time in seconds on the
clock of `World.now`; `0` stands for the zero `time.Time` (a token that never
expires). -/
structure Token where
  AccessToken : String
  TokenType : String
  RefreshToken : String
  Expiry : Int
deriving DecidableEq

/-- The `*http.Client` returned by `config.Client(ctx, tok)`: the configuration
and the token its token source currently holds in memory. -/
structure Client where
  config : Config
  tok : Token
deriving DecidableEq

/-- A non-nil `*drive.Service`, built over an HTTP client. -/
structure Service where
  client : Client
deriving DecidableEq

/-- The fields of `drive.File` the program reads. -/
structure File where
  Id : String
  Name : String
  MimeType : String
  WebViewLink : String
deriving DecidableEq

/-- What the process did, in order: function entries and calls that leave the
process. -/
inductive Event where
  | flow (config : Config)
  | exchange (config : Config) (code : String)
  | save (path : String) (token : Token)
  | refresh (config : Config) (refreshToken : String)
  | request (accessToken : String)
  | filesGet (id : String)
  | filesList (query : String)
deriving DecidableEq

/-- The state of the process and of the machine around it. -/
structure World where
  /-- The regular files, path and content; the first entry for a path counts. -/
  files : List (String × List Char)
  /-- Paths that `os.OpenFile` cannot open for writing. -/
  readOnly : List String
  /-- How many more bytes the file system accepts. -/
  space : Nat
  /-- The whitespace-separated words still to be read from standard input. -/
  stdin : List String
  /-- What was printed on standard output, oldest first. -/
  stdout : List String
  /-- The events so far, oldest first. -/
  trace : List Event
  /-- The wall clock, in seconds. -/
  now : Int
deriving DecidableEq

/-- The libraries and remote services the program calls. -/
structure Env where
  /-- The function `json.Marshal` on a token. -/
  marshal : Token → Except String (List Char)
  /-- The decoding of a file content into a token by `json.Decoder.Decode`. -/
  unmarshal : List Char → Except String Token
  /-- The method `config.AuthCodeURL("state-token", oauth2.AccessTypeOffline)`. -/
  authCodeURL : Config → String
  /-- The method `config.Exchange(ctx, authCode)`. -/
  exchange : Config → String → Except String Token
  /-- The token endpoint's answer to a refresh-token grant at a given time. -/
  refreshGrant : Config → String → Int → Except String Token
  /-- The function `google.ConfigFromJSON(b, drive.DriveScope)`. -/
  configFromJSON : List Char → Except String Config
  /-- The function `drive.NewService(ctx, option.WithHTTPClient(client))`. -/
  newService : Client → Except String Service
  /-- The call `service.Files.Get(id).Fields("webViewLink").Do()`: the record
  pointer (nil is `none`) and the error (nil is `none`). -/
  filesGetDo : Service → String → Option File × Option String
  /-- The call `srv.Files.List().Q(query).Do()`, its `Files` on success. -/
  filesListDo : Service → String → Except String (List File)

/-- How a call ends: it returns, the process exits through `log.Fatalf`, or the
process dies of a run-time panic. -/
inductive Res (α : Type) where
  | ret (a : α) (w : World)
  | fatal (msg : String) (w : World)
  | panic (msg : String) (w : World)
deriving DecidableEq

/-- The world a call ends in. -/
def Res.world {α : Type} : Res α → World
  | .ret _ w => w
  | .fatal _ w => w
  | .panic _ w => w

/-- Sequencing: the rest of the function body runs only after a return. -/
def Res.bind {α β : Type} (r : Res α) (k : α → World → Res β) : Res β :=
  match r with
  | .ret a w => k a w
  | .fatal msg w => .fatal msg w
  | .panic msg w => .panic msg w

/-! ## The world's primitives -/

/-- Print on standard output (`fmt.Printf`, `fmt.Println`). -/
def World.print (w : World) (s : String) : World :=
  { w with stdout := w.stdout ++ [s] }

/-- Record an event. -/
def World.log (w : World) (e : Event) : World :=
  { w with trace := w.trace ++ [e] }

/-- The content of the file at `path`, if there is one. -/
def World.readFile (w : World) (path : String) : Option (List Char) :=
  match w.files.find? (fun f => f.1 == path) with
  | some f => some f.2
  | none => none

/-- Replace the content of the file at `path`. -/
def World.setFile (w : World) (path : String) (data : List Char) : World :=
  { w with files := (path, data) :: w.files.filter (fun f => !(f.1 == path)) }

/-- Create the file at `path` or cut it to length zero; the bytes it held are
free again. -/
def World.truncate (w : World) (path : String) : World :=
  { w.setFile path [] with space := w.space + ((w.readFile path).getD []).length }

/-- The call `os.OpenFile(path, os.O_RDWR|os.O_CREATE|os.O_TRUNC, 0600)`: on
success the file exists and is empty, and the space of its old content is given
back. -/
def World.openTrunc (w : World) (path : String) : Except String World :=
  if path ∈ w.readOnly then .error ("open " ++ path ++ ": permission denied")
  else .ok (w.truncate path)

/-- The method `(*os.File).Write` at the end of the file: the bytes that fit are
written, and an error is returned when some do not. -/
def World.write (w : World) (path : String) (data : List Char) : World × Option String :=
  let old := (w.readFile path).getD []
  if data.length ≤ w.space then
    ({ w.setFile path (old ++ data) with space := w.space - data.length }, none)
  else
    ({ w.setFile path (old ++ data.take w.space) with space := 0 },
      some ("write " ++ path ++ ": no space left on device"))

/-- The method `json.NewEncoder(f).Encode(token)`: marshal, add a newline, write
once; the error of either step is returned. -/
def Encode (env : Env) (path : String) (token : Token) (w : World) : World × Option String :=
  match env.marshal token with
  | .error e => (w, some e)
  | .ok b => w.write path (b ++ ['\n'])

/-- The call `fmt.Scan(&authCode)`: the next word of standard input. -/
def Scan (w : World) : Except String String × World :=
  match w.stdin with
  | [] => (.error "EOF", w)
  | code :: rest => (.ok code, { w with stdin := rest })

/-! ## The token store (`api.go`, lines 63-106) -/

/-- The function `tokenFromFile`: the decoded token, or the error of `os.Open` or of the
decoder.  (On a decode error Go also returns the partly filled token; the only
caller drops it.) -/
def tokenFromFile (env : Env) (file : String) (w : World) : Except String Token :=
  match w.readFile file with
  | none => .error ("open " ++ file ++ ": no such file or directory")
  | some data => env.unmarshal data

/-- The function `saveToken`: a failed open is fatal; the result of `Encode` is
dropped (line 105). -/
def saveToken (env : Env) (path : String) (token : Token) (w : World) : Res Unit :=
  let w := (w.log (.save path token)).print ("Saving credential file to: " ++ path ++ "\n")
  match w.openTrunc path with
  | .error err => .fatal ("Unable to cache oauth token: " ++ err) w
  | .ok w => .ret () (Encode env path token w).1

/-! ## The authorization flow and the client (`api.go`, lines 46-95) -/

/-- The function `getTokenFromWeb`: print the consent URL, read the code, exchange it
once; either failure ends the process. -/
def getTokenFromWeb (env : Env) (config : Config) (w : World) : Res Token :=
  let authURL := env.authCodeURL config
  let w := (w.log (.flow config)).print
    ("Go to the following link in your browser then type the authorization code: \n"
      ++ authURL ++ "\n")
  let w := w.print "Paste Authrization code here :\n"
  match Scan w with
  | (.error err, w) => .fatal ("Unable to read authorization code " ++ err) w
  | (.ok authCode, w) =>
    let w := w.log (.exchange config authCode)
    match env.exchange config authCode with
    | .error err => .fatal ("Unable to retrieve token from web " ++ err) w
    | .ok tok => .ret tok w

/-- The function `getClient`: the cached token when `token.json` loads; otherwise the
flow's token, saved. -/
def getClient (env : Env) (config : Config) (w : World) : Res Client :=
  let tokFile := "token.json"
  match tokenFromFile env tokFile w with
  | .ok tok => .ret ⟨config, tok⟩ w
  | .error _ =>
    (getTokenFromWeb env config w).bind fun tok w =>
    (saveToken env tokFile tok w).bind fun _ w =>
    .ret ⟨config, tok⟩ w

/-- The method `Valid` of `oauth2.Token` at time `now`: an access token is set and
the expiry, when set, is more than the library's ten seconds away. -/
def Token.Valid (t : Token) (now : Int) : Bool :=
  t.AccessToken != "" && !(t.Expiry != 0 && decide (t.Expiry - 10 < now))

/-- One request through the client (`oauth2.Transport.RoundTrip` over a
`ReuseTokenSource`): a valid token is used as it is; an expired one is renewed
with the refresh token and kept in the client's memory.  The result is the
access token the request went out with, or the error of the token source. -/
def Client.Do (env : Env) (c : Client) (w : World) : (Client × Except String String) × World :=
  if c.tok.Valid w.now then
    ((c, .ok c.tok.AccessToken), w.log (.request c.tok.AccessToken))
  else if c.tok.RefreshToken = "" then
    ((c, .error "oauth2: token expired and refresh token is not set"), w)
  else
    let w := w.log (.refresh c.config c.tok.RefreshToken)
    match env.refreshGrant c.config c.tok.RefreshToken w.now with
    | .error err => ((c, .error err), w)
    | .ok tok => (({ c with tok := tok }, .ok tok.AccessToken), w.log (.request tok.AccessToken))

/-! ## The Drive calls of `main` (`api.go`, lines 19-44, 168-176, 233-283) -/

/-- The message of Go's run-time panic on a nil pointer. -/
def nilDereference : String :=
  "runtime error: invalid memory address or nil pointer dereference"

/-- The function `getDriveService`: the service and the error, as the Go pair. -/
def getDriveService (env : Env) (w : World) : Res (Option Service × Option String) :=
  match w.readFile "credentials.json" with
  | none =>
    let err := "open credentials.json: no such file or directory"
    .ret (none, some err) (w.print ("Unable to read credentials.json file. Err: " ++ err ++ "\n"))
  | some b =>
    match env.configFromJSON b with
    | .error err => .ret (none, some err) w
    | .ok config =>
      (getClient env config w).bind fun client w =>
      match env.newService client with
      | .error err =>
        .ret (none, some err) (w.print ("Cannot create the Google Drive service: " ++ err ++ "\n"))
      | .ok service => .ret (some service, none) w

/-- The function `getFolderLink`: `service.Files` needs a service, and
`fileLink.WebViewLink` is read whether or not `Do` returned an error. -/
def getFolderLink (env : Env) (service : Option Service) (w : World) : Res String :=
  match service with
  | none => .panic nilDereference w
  | some s =>
    let w := w.log (.filesGet "12MJM0cOQUXbrP3pyaX-hVe22U6yJY27T")
    let (fileLink, err) := env.filesGetDo s "12MJM0cOQUXbrP3pyaX-hVe22U6yJY27T"
    let w := match err with
      | some e => w.print ("Could not get folder link: " ++ e ++ "\n")
      | none => w
    match fileLink with
    | none => .panic nilDereference w
    | some f => .ret f.WebViewLink (w.print ("FileLink " ++ f.WebViewLink ++ "\n"))

/-- The pieces of `s` between the occurrences of the character `sep`. -/
def splitChars (sep : Char) : List Char → List (List Char)
  | [] => [[]]
  | c :: rest =>
    if c = sep then [] :: splitChars sep rest
    else
      match splitChars sep rest with
      | [] => [[c]]
      | piece :: pieces => (c :: piece) :: pieces

/-- The function `strings.Split(s, sep)` for a separator of one character, as at its call
in `main`. -/
def Split (s : String) (sep : Char) : List String :=
  (splitChars sep s.data).map String.mk

/-- Go's slice indexing `xs[i]`: `none` is the out-of-range panic. -/
def index {α : Type} (xs : List α) (i : Int) : Option α :=
  if 0 ≤ i ∧ i < xs.length then xs[i.toNat]? else none

/-- The function `GetAllFiles`: list the files of the folder and print them. -/
def GetAllFiles (env : Env) (srv : Option Service) (folderID : String) (w : World) :
    Res (List File × Option String) :=
  let fs : List File := []
  let query := "parents in '" ++ folderID ++ "' and trashed=false"
  match srv with
  | none => .panic nilDereference w
  | some s =>
    let w := w.log (.filesList query)
    match env.filesListDo s query with
    | .error err => .ret (fs, some err) (w.print ("Error occurred: " ++ err ++ "\n"))
    | .ok files =>
      let fs := fs ++ files
      let w := fs.foldl (fun w f => w.print
        ("Filename: " ++ f.Name ++ ", FileType: " ++ f.MimeType ++ ", FileID:" ++ f.Id ++ "\n")) w
      .ret (fs, none) w

/-- The function `main`: the error of `getDriveService` is dropped (line 271). -/
def main (env : Env) (w : World) : Res Unit :=
  (getDriveService env w).bind fun r w =>
  let srv := r.1
  (getFolderLink env srv w).bind fun folderLink w =>
  let splits := Split folderLink '/'
  match index splits ((splits.length : Int) - 1) with
  | none => .panic "runtime error: index out of range [-1]" w
  | some folderID =>
    (GetAllFiles env srv folderID w).bind fun _ w =>
    .ret () w

/-! ## A concrete environment -/

/-- The token the flow issues in the examples. -/
def tokA1 : Token := ⟨"a1", "Bearer", "r1", 3600⟩

/-- The token a refresh issues in the examples. -/
def tokA2 : Token := ⟨"a2", "Bearer", "r1", 10800⟩

/-- The JSON text of `tokA1`. -/
def jsonA1 : List Char :=
  ("\x7b\"access_token\":\"a1\",\"token_type\":\"Bearer\",\"refresh_token\":\"r1\"," ++
    "\"expiry\":\"1970-01-01T01:00:00Z\"\x7d").data

/-- The JSON text of `tokA2`. -/
def jsonA2 : List Char :=
  ("\x7b\"access_token\":\"a2\",\"token_type\":\"Bearer\",\"refresh_token\":\"r1\"," ++
    "\"expiry\":\"1970-01-01T03:00:00Z\"\x7d").data

/-- The configuration of the examples. -/
def cfg1 : Config := ⟨"c1", "s1", "https://auth.example/auth", "https://auth.example/token", ["storage"]⟩

/-- The folder record of the examples. -/
def folder1 : File :=
  ⟨"12MJM0cOQUXbrP3pyaX-hVe22U6yJY27T", "Folder", "application/vnd.google-apps.folder",
    "https://drive.google.com/drive/folders/12MJM0cOQUXbrP3pyaX-hVe22U6yJY27T"⟩

/-- An environment for the examples: a codec that knows the two example tokens,
an authorization server that accepts the code `code1`, and a Drive that holds
`folder1`. -/
def demoEnv : Env where
  marshal t :=
    if t = tokA1 then .ok jsonA1 else if t = tokA2 then .ok jsonA2
    else .error "json: unsupported value"
  unmarshal d :=
    if d = jsonA1 ++ ['\n'] then .ok tokA1 else if d = jsonA2 ++ ['\n'] then .ok tokA2
    else .error "unexpected EOF"
  authCodeURL c := c.AuthURL ++ "?access_type=offline&client_id=" ++ c.ClientID
  exchange _ code := if code = "code1" then .ok tokA1 else .error "oauth2: cannot fetch token: 400 Bad Request"
  refreshGrant _ rt _ := if rt = "r1" then .ok tokA2 else .error "oauth2: cannot fetch token: 401 Unauthorized"
  configFromJSON _ := .ok cfg1
  newService c := .ok ⟨c⟩
  filesGetDo _ id := if id = folder1.Id then (some folder1, none) else (none, some "googleapi: Error 404: File not found")
  filesListDo _ _ := .ok []

/-- A fresh machine: no files, room on the disk, the code `code1` typed on the
console. -/
def world0 : World :=
  { files := [], readOnly := [], space := 4096, stdin := ["code1"], stdout := [], trace := [], now := 0 }

/-- A machine whose disk has ten bytes left and where `code1` can be typed
twice. -/
def lowDisk : World := { world0 with space := 10, stdin := ["code1", "code1"] }

/-- A machine whose `token.json` holds the three bytes of an empty JSON object
and a newline, with ten bytes of disk left. -/
def lowDiskStale : World :=
  { world0 with files := [("token.json", "\x7b\x7d\n".data)], space := 10 }

/-- A fresh machine with a `credentials.json`. -/
def worldCred : World := { world0 with files := [("credentials.json", [])] }

/-- A machine that caches `tokA1`, at a time when that token has expired. -/
def expiredCache : World :=
  { world0 with files := [("token.json", jsonA1 ++ ['\n'])], stdin := [], now := 7200 }

/-! ## Reading a run: entry worlds and calls made -/

/-- The world `saveToken` opens the file in: the call logged, the line printed. -/
def saveEntry (path : String) (token : Token) (w : World) : World :=
  (w.log (.save path token)).print ("Saving credential file to: " ++ path ++ "\n")

/-- The world `getTokenFromWeb` reads the code in: the call logged, the two
prompts printed. -/
def flowEntry (env : Env) (config : Config) (w : World) : World :=
  ((w.log (.flow config)).print
    ("Go to the following link in your browser then type the authorization code: \n"
      ++ env.authCodeURL config ++ "\n")).print "Paste Authrization code here :\n"

/-- The world of `getFolderLink` once `Do` has answered: the call logged, the
error, if there is one, printed. -/
def getEntry (err : Option String) (w : World) : World :=
  match err with
  | some e =>
    (w.log (.filesGet "12MJM0cOQUXbrP3pyaX-hVe22U6yJY27T")).print
      ("Could not get folder link: " ++ e ++ "\n")
  | none => w.log (.filesGet "12MJM0cOQUXbrP3pyaX-hVe22U6yJY27T")

/-- The configurations `getTokenFromWeb` was entered with, in order. -/
def flowCalls (t : List Event) : List Config :=
  t.filterMap fun e => match e with
    | .flow c => some c
    | _ => none

/-- The code exchanges attempted, in order. -/
def exchangeCalls (t : List Event) : List (Config × String) :=
  t.filterMap fun e => match e with
    | .exchange c code => some (c, code)
    | _ => none

/-- The calls of `saveToken`, in order. -/
def saveCalls (t : List Event) : List (String × Token) :=
  t.filterMap fun e => match e with
    | .save p tok => some (p, tok)
    | _ => none

/-! # Theorems -/

/-! ## The file system -/

@[simp]
theorem print_files (w : World) (s : String) : (w.print s).files = w.files := rfl
@[simp]
theorem print_readOnly (w : World) (s : String) : (w.print s).readOnly = w.readOnly := rfl
@[simp]
theorem print_space (w : World) (s : String) : (w.print s).space = w.space := rfl
@[simp]
theorem print_stdin (w : World) (s : String) : (w.print s).stdin = w.stdin := rfl
@[simp]
theorem print_trace (w : World) (s : String) : (w.print s).trace = w.trace := rfl
@[simp]
theorem print_now (w : World) (s : String) : (w.print s).now = w.now := rfl
@[simp]
theorem log_files (w : World) (e : Event) : (w.log e).files = w.files := rfl
@[simp]
theorem log_readOnly (w : World) (e : Event) : (w.log e).readOnly = w.readOnly := rfl
@[simp]
theorem log_space (w : World) (e : Event) : (w.log e).space = w.space := rfl
@[simp]
theorem log_stdin (w : World) (e : Event) : (w.log e).stdin = w.stdin := rfl
@[simp]
theorem log_stdout (w : World) (e : Event) : (w.log e).stdout = w.stdout := rfl
@[simp]
theorem log_trace (w : World) (e : Event) : (w.log e).trace = w.trace ++ [e] := rfl
@[simp]
theorem log_now (w : World) (e : Event) : (w.log e).now = w.now := rfl
@[simp]
theorem setFile_readOnly (w : World) (p : String) (d : List Char) :
    (w.setFile p d).readOnly = w.readOnly := rfl
@[simp]
theorem setFile_space (w : World) (p : String) (d : List Char) :
    (w.setFile p d).space = w.space := rfl
@[simp]
theorem setFile_trace (w : World) (p : String) (d : List Char) :
    (w.setFile p d).trace = w.trace := rfl
@[simp]
theorem setFile_stdin (w : World) (p : String) (d : List Char) :
    (w.setFile p d).stdin = w.stdin := rfl

/-- Reading depends on the files only. -/
theorem readFile_congr {w w1 : World} (h : w1.files = w.files) (p : String) :
    w1.readFile p = w.readFile p := by
  simp [World.readFile, h]

@[simp]
theorem readFile_print (w : World) (s p : String) :
    (w.print s).readFile p = w.readFile p := rfl

@[simp]
theorem readFile_log (w : World) (e : Event) (p : String) :
    (w.log e).readFile p = w.readFile p := rfl

/-- A file holds what was last put in it. -/
@[simp]
theorem readFile_setFile_same (w : World) (p : String) (d : List Char) :
    (w.setFile p d).readFile p = some d := by
  simp [World.readFile, World.setFile]

/-- Putting a content in one file leaves the other files as they were. -/
theorem readFile_setFile_other (w : World) (p q : String) (d : List Char) (h : q ≠ p) :
    (w.setFile p d).readFile q = w.readFile q := by
  have hpq : ¬ p = q := fun e => h e.symm
  have hfilter : ∀ fs : List (String × List Char),
      (fs.filter (fun f => !(f.1 == p))).find? (fun f => f.1 == q)
        = fs.find? (fun f => f.1 == q) := by
    intro fs
    induction fs with
    | nil => rfl
    | cons f fs ih =>
      by_cases hf : f.1 = p
      · have hfq : ¬ f.1 = q := fun e => h (e.symm.trans hf)
        simp [List.filter_cons, List.find?_cons, hf, hpq, ih]
      · by_cases hfq : f.1 = q
        · simp [List.filter_cons, List.find?_cons, hf, hfq, h]
        · simp [List.filter_cons, List.find?_cons, hf, hfq, ih]
  simp only [World.readFile, World.setFile, List.find?_cons]
  have : ((p, d).1 == q) = false := by simpa using hpq
  rw [this]
  simp only [hfilter]

/-- A truncated file is empty. -/
@[simp]
theorem readFile_truncate_same (w : World) (p : String) :
    (w.truncate p).readFile p = some [] :=
  readFile_setFile_same w p []

/-- Truncating one file leaves the other files as they were. -/
theorem readFile_truncate_other (w : World) (p q : String) (h : q ≠ p) :
    (w.truncate p).readFile q = w.readFile q :=
  readFile_setFile_other w p q [] h

@[simp]
theorem truncate_space (w : World) (p : String) :
    (w.truncate p).space = w.space + ((w.readFile p).getD []).length := rfl

@[simp]
theorem truncate_trace (w : World) (p : String) : (w.truncate p).trace = w.trace := rfl

/-- What a write leaves in a file that was empty: the bytes that fit. -/
theorem readFile_write_empty (w : World) (p : String) (data : List Char)
    (h : w.readFile p = some []) :
    ((w.write p data).1).readFile p = some (data.take w.space) := by
  unfold World.write
  by_cases hfit : data.length ≤ w.space
  · simp only [h, Option.getD_some, List.nil_append, hfit, if_true]
    rw [List.take_of_length_le hfit]
    exact readFile_setFile_same w p data
  · simp only [h, Option.getD_some, List.nil_append, hfit, if_false]
    exact readFile_setFile_same w p (data.take w.space)

/-- A write to one file leaves the other files as they were. -/
theorem readFile_write_other (w : World) (p q : String) (data : List Char) (h : q ≠ p) :
    ((w.write p data).1).readFile q = w.readFile q := by
  unfold World.write
  by_cases hfit : data.length ≤ w.space
  · simp only [hfit, if_true]
    exact readFile_setFile_other w p q _ h
  · simp only [hfit, if_false]
    exact readFile_setFile_other w p q _ h

/-- The error of a write: none exactly when all the bytes fit. -/
theorem write_error_none_iff (w : World) (p : String) (data : List Char) :
    (w.write p data).2 = none ↔ data.length ≤ w.space := by
  unfold World.write
  by_cases hfit : data.length ≤ w.space <;> simp [hfit]

@[simp]
theorem write_trace (w : World) (p : String) (data : List Char) :
    (w.write p data).1.trace = w.trace := by
  unfold World.write
  by_cases hfit : data.length ≤ w.space <;> simp [hfit, World.setFile]

@[simp]
theorem Encode_trace (env : Env) (p : String) (t : Token) (w : World) :
    (Encode env p t w).1.trace = w.trace := by
  unfold Encode
  cases env.marshal t <;> simp

/-! ## The token store -/

/-- A file that cannot be opened for writing: `saveToken` is fatal and the files
are as they were. -/
theorem saveToken_of_readOnly (env : Env) (path : String) (token : Token) (w : World)
    (h : path ∈ w.readOnly) :
    saveToken env path token w
      = .fatal ("Unable to cache oauth token: " ++ ("open " ++ path ++ ": permission denied"))
          (saveEntry path token w) := by
  simp [saveToken, saveEntry, World.openTrunc, h]

/-- A file that can be opened: `saveToken` returns whatever `Encode` did. -/
theorem saveToken_of_writable (env : Env) (path : String) (token : Token) (w : World)
    (h : path ∉ w.readOnly) :
    saveToken env path token w
      = .ret () (Encode env path token ((saveEntry path token w).truncate path)).1 := by
  simp [saveToken, saveEntry, World.openTrunc, h]

/-- The round trip when nothing fails: the file can be opened, the token
marshals, the bytes fit and decode back. -/
theorem saveToken_tokenFromFile (env : Env) (path : String) (token : Token) (w : World)
    (b : List Char) (hopen : path ∉ w.readOnly) (hm : env.marshal token = .ok b)
    (hfit : b.length + 1 ≤ w.space) (hdec : env.unmarshal (b ++ ['\n']) = .ok token) :
    ∃ w1, saveToken env path token w = .ret () w1 ∧ tokenFromFile env path w1 = .ok token := by
  refine ⟨_, saveToken_of_writable env path token w hopen, ?_⟩
  have hread : ((Encode env path token ((saveEntry path token w).truncate path)).1).readFile path
      = some (b ++ ['\n']) := by
    simp only [Encode, hm]
    rw [readFile_write_empty _ _ _ (readFile_truncate_same _ _)]
    have hlen : (b ++ ['\n']).length
        ≤ ((saveEntry path token w).truncate path).space := by
      simp only [truncate_space, saveEntry, print_space, log_space, List.length_append,
        List.length_singleton]
      omega
    rw [List.take_of_length_le hlen]
  simp [tokenFromFile, hread, hdec]

/-- The round trip on the fresh machine, where nothing fails. -/
theorem saveToken_tokenFromFile_world0 :
    ∃ w1, saveToken demoEnv "token.json" tokA1 world0 = .ret () w1 ∧
      tokenFromFile demoEnv "token.json" w1 = .ok tokA1 :=
  saveToken_tokenFromFile demoEnv "token.json" tokA1 world0 jsonA1 (by decide) rfl (by decide) rfl

/-- C1, at its failing input: on a disk with ten bytes left `saveToken` of a
valid record returns normally, and the `tokenFromFile` that follows returns an
error, not the record. -/
theorem saveToken_completes_load_fails :
    ∃ w1, saveToken demoEnv "token.json" tokA1 lowDisk = .ret () w1 ∧
      w1.readFile "token.json" = some "\x7b\"access_t".data ∧
      tokenFromFile demoEnv "token.json" w1 = .error "unexpected EOF" :=
  ⟨_, rfl, by decide, rfl⟩

/-- C4, at its failing input: after the open the write of `Encode` fails with
"no space left on device", and `saveToken` still returns normally, with no
report of the error. -/
theorem saveToken_swallows_write_error :
    ∃ w1, w1.readFile "token.json" = some [] ∧
      (Encode demoEnv "token.json" tokA1 w1).2
        = some "write token.json: no space left on device" ∧
      saveToken demoEnv "token.json" tokA1 lowDisk
        = .ret () (Encode demoEnv "token.json" tokA1 w1).1 :=
  ⟨(saveEntry "token.json" tokA1 lowDisk).truncate "token.json", by decide, by decide, rfl⟩

/-- C7, as the claim states it, fails: `token.json` holds three bytes and the
disk has ten bytes left.  The function `saveToken` of `tokA2` returns, and the file holds
the first thirteen bytes of the new record: neither the prior content nor the
serialization of the new record. -/
theorem saveToken_not_atomic :
    ∃ w1, saveToken demoEnv "token.json" tokA2 lowDiskStale = .ret () w1 ∧
      w1.readFile "token.json" = some "\x7b\"access_toke".data ∧
      ¬ (w1.readFile "token.json" = lowDiskStale.readFile "token.json" ∨
         w1.readFile "token.json" = some (jsonA2 ++ ['\n'])) :=
  ⟨(saveToken demoEnv "token.json" tokA2 lowDiskStale).world, rfl, by decide, by decide⟩

/-- C7, amended: `saveToken` truncates in place, then writes once.  When the
open fails the call is fatal and every file is as it was.  When the open
succeeds the call returns, the other files are as they were, and the file holds
the bytes of the serialization that fit in the free space and the space of the
prior content (nothing when the record does not marshal): the complete
serialization exactly when all of it fits there. -/
theorem saveToken_truncates_then_writes (env : Env) (path : String) (token : Token)
    (w : World) :
    (path ∈ w.readOnly →
      ∃ msg w1, saveToken env path token w = .fatal msg w1 ∧ w1.files = w.files) ∧
    (path ∉ w.readOnly →
      ∃ w1, saveToken env path token w = .ret () w1 ∧
        (∀ q, q ≠ path → w1.readFile q = w.readFile q) ∧
        (∀ e, env.marshal token = .error e → w1.readFile path = some []) ∧
        (∀ b, env.marshal token = .ok b →
          w1.readFile path
            = some ((b ++ ['\n']).take (w.space + ((w.readFile path).getD []).length)) ∧
          (w1.readFile path = some (b ++ ['\n'])
            ↔ b.length + 1 ≤ w.space + ((w.readFile path).getD []).length))) := by
  constructor
  · intro h
    exact ⟨_, _, saveToken_of_readOnly env path token w h, rfl⟩
  · intro h
    refine ⟨_, saveToken_of_writable env path token w h, ?_, ?_, ?_⟩
    · intro q hq
      unfold Encode
      cases env.marshal token with
      | error e =>
        simp only []
        rw [readFile_truncate_other _ _ _ hq]
        rfl
      | ok b =>
        simp only []
        rw [readFile_write_other _ _ _ _ hq, readFile_truncate_other _ _ _ hq]
        rfl
    · intro e he
      simp [Encode, he]
    · intro b hb
      have hread : ((Encode env path token ((saveEntry path token w).truncate path)).1).readFile
          path = some ((b ++ ['\n']).take (w.space + ((w.readFile path).getD []).length)) := by
        simp only [Encode, hb]
        rw [readFile_write_empty _ _ _ (readFile_truncate_same _ _)]
        rfl
      refine ⟨hread, ?_⟩
      rw [hread, Option.some_inj, List.take_eq_self_iff]
      simp

/-! ## The authorization flow -/

/-- The flow when no code can be read. -/
theorem getTokenFromWeb_of_scan_error (env : Env) (config : Config) (w : World)
    (h : w.stdin = []) :
    getTokenFromWeb env config w
      = .fatal ("Unable to read authorization code " ++ "EOF") (flowEntry env config w) := by
  simp [getTokenFromWeb, flowEntry, Scan, h]

/-- The flow when the exchange is refused. -/
theorem getTokenFromWeb_of_exchange_error (env : Env) (config : Config) (w : World)
    (code : String) (rest : List String) (err : String) (h : w.stdin = code :: rest)
    (hx : env.exchange config code = .error err) :
    getTokenFromWeb env config w
      = .fatal ("Unable to retrieve token from web " ++ err)
          ({ flowEntry env config w with stdin := rest }.log (.exchange config code)) := by
  simp [getTokenFromWeb, flowEntry, Scan, h, hx]

/-- The flow when the exchange issues a token. -/
theorem getTokenFromWeb_of_issued (env : Env) (config : Config) (w : World)
    (code : String) (rest : List String) (tok : Token) (h : w.stdin = code :: rest)
    (hx : env.exchange config code = .ok tok) :
    getTokenFromWeb env config w
      = .ret tok ({ flowEntry env config w with stdin := rest }.log (.exchange config code)) := by
  simp [getTokenFromWeb, flowEntry, Scan, h, hx]

/-- The three ways the flow ends. -/
theorem getTokenFromWeb_cases (env : Env) (config : Config) (w : World) :
    (w.stdin = [] ∧ getTokenFromWeb env config w
        = .fatal ("Unable to read authorization code " ++ "EOF") (flowEntry env config w)) ∨
    (∃ code rest err, w.stdin = code :: rest ∧ env.exchange config code = .error err ∧
      getTokenFromWeb env config w
        = .fatal ("Unable to retrieve token from web " ++ err)
            ({ flowEntry env config w with stdin := rest }.log (.exchange config code))) ∨
    (∃ code rest tok, w.stdin = code :: rest ∧ env.exchange config code = .ok tok ∧
      getTokenFromWeb env config w
        = .ret tok ({ flowEntry env config w with stdin := rest }.log (.exchange config code))) := by
  cases hs : w.stdin with
  | nil => exact Or.inl ⟨rfl, getTokenFromWeb_of_scan_error env config w hs⟩
  | cons code rest =>
    cases hx : env.exchange config code with
    | error err =>
      exact Or.inr (Or.inl ⟨code, rest, err, rfl, hx,
        getTokenFromWeb_of_exchange_error env config w code rest err hs hx⟩)
    | ok tok =>
      exact Or.inr (Or.inr ⟨code, rest, tok, rfl, hx,
        getTokenFromWeb_of_issued env config w code rest tok hs hx⟩)

/-- The three ways the flow ends do occur: a token is issued on the fresh
machine, the flow fails with nothing typed, and it fails on a refused code. -/
theorem getTokenFromWeb_examples :
    (∃ w1, getTokenFromWeb demoEnv cfg1 world0 = .ret tokA1 w1) ∧
    (∃ w1, getTokenFromWeb demoEnv cfg1 { world0 with stdin := [] }
      = .fatal "Unable to read authorization code EOF" w1) ∧
    (∃ w1, getTokenFromWeb demoEnv cfg1 { world0 with stdin := ["stale"] }
      = .fatal "Unable to retrieve token from web oauth2: cannot fetch token: 400 Bad Request"
          w1) :=
  ⟨⟨_, rfl⟩, ⟨_, rfl⟩, ⟨_, rfl⟩⟩

@[simp]
theorem flowEntry_files (env : Env) (config : Config) (w : World) :
    (flowEntry env config w).files = w.files := rfl

@[simp]
theorem flowEntry_trace (env : Env) (config : Config) (w : World) :
    (flowEntry env config w).trace = w.trace ++ [.flow config] := rfl

@[simp]
theorem flowEntry_readOnly (env : Env) (config : Config) (w : World) :
    (flowEntry env config w).readOnly = w.readOnly := rfl

@[simp]
theorem saveEntry_files (path : String) (token : Token) (w : World) :
    (saveEntry path token w).files = w.files := rfl

@[simp]
theorem saveEntry_trace (path : String) (token : Token) (w : World) :
    (saveEntry path token w).trace = w.trace ++ [.save path token] := rfl

@[simp]
theorem flowCalls_append (t u : List Event) :
    flowCalls (t ++ u) = flowCalls t ++ flowCalls u := by
  simp [flowCalls]

@[simp]
theorem exchangeCalls_append (t u : List Event) :
    exchangeCalls (t ++ u) = exchangeCalls t ++ exchangeCalls u := by
  simp [exchangeCalls]

@[simp]
theorem saveCalls_append (t u : List Event) :
    saveCalls (t ++ u) = saveCalls t ++ saveCalls u := by
  simp [saveCalls]

/-- The trace of `saveToken`: the call itself and nothing else. -/
theorem saveToken_trace (env : Env) (path : String) (token : Token) (w : World) :
    (saveToken env path token w).world.trace = w.trace ++ [.save path token] := by
  by_cases h : path ∈ w.readOnly
  · rw [saveToken_of_readOnly env path token w h]
    rfl
  · rw [saveToken_of_writable env path token w h]
    simp [Res.world]

/-- The function `saveToken` never panics. -/
theorem saveToken_no_panic (env : Env) (path : String) (token : Token) (w : World)
    (msg : String) (w1 : World) : saveToken env path token w ≠ .panic msg w1 := by
  by_cases h : path ∈ w.readOnly
  · rw [saveToken_of_readOnly env path token w h]
    exact fun e => Res.noConfusion e
  · rw [saveToken_of_writable env path token w h]
    exact fun e => Res.noConfusion e

/-- C8: every run of `getTokenFromWeb` ends Issued (it returns a token) or Failed
(the process exits with a reported cause), never otherwise, and attempts at most
one exchange.  It fails exactly as stated: when the code cannot be read, with no
exchange at all; when the one exchange is refused.  A token is returned only
when the one exchange issued it.  When the flow fails, the files are as they
were, `saveToken` was not called, and `getClient`, which runs the flow when
`token.json` does not load, fails the same way. -/
theorem getTokenFromWeb_terminal (env : Env) (config : Config) (w : World) :
    (∀ msg w1, getTokenFromWeb env config w ≠ .panic msg w1) ∧
    (exchangeCalls (getTokenFromWeb env config w).world.trace).length
      ≤ (exchangeCalls w.trace).length + 1 ∧
    (∀ err, (Scan (flowEntry env config w)).1 = .error err →
      ∃ w1, getTokenFromWeb env config w
          = .fatal ("Unable to read authorization code " ++ err) w1 ∧
        exchangeCalls w1.trace = exchangeCalls w.trace) ∧
    (∀ code err, (Scan (flowEntry env config w)).1 = .ok code →
      env.exchange config code = .error err →
      ∃ w1, getTokenFromWeb env config w
          = .fatal ("Unable to retrieve token from web " ++ err) w1 ∧
        exchangeCalls w1.trace = exchangeCalls w.trace ++ [(config, code)]) ∧
    (∀ tok w1, getTokenFromWeb env config w = .ret tok w1 →
      ∃ code, (Scan (flowEntry env config w)).1 = .ok code ∧
        env.exchange config code = .ok tok ∧
        exchangeCalls w1.trace = exchangeCalls w.trace ++ [(config, code)]) ∧
    (∀ msg w1, getTokenFromWeb env config w = .fatal msg w1 →
      w1.files = w.files ∧ saveCalls w1.trace = saveCalls w.trace ∧
      ∀ e, tokenFromFile env "token.json" w = .error e →
        getClient env config w = .fatal msg w1) := by
  rcases getTokenFromWeb_cases env config w with ⟨hs, hr⟩ | ⟨code, rest, err, hs, hx, hr⟩ |
    ⟨code, rest, tok, hs, hx, hr⟩
  · refine ⟨?_, ?_, ?_, ?_, ?_, ?_⟩
    · intro msg w1 h
      rw [hr] at h
      exact Res.noConfusion h
    · rw [hr]
      simp [Res.world, exchangeCalls]
    · intro err herr
      have : err = "EOF" := by
        simp [Scan, flowEntry, hs] at herr
        exact herr.symm
      subst this
      exact ⟨_, hr, by simp [exchangeCalls]⟩
    · intro code err hc
      simp [Scan, flowEntry, hs] at hc
    · intro tok w1 h
      rw [hr] at h
      exact Res.noConfusion h
    · intro msg w1 h
      rw [hr] at h
      injection h with hmsg hw
      subst hw
      refine ⟨rfl, by simp [saveCalls], ?_⟩
      intro e he
      simp [getClient, he, hr, Res.bind, hmsg]
  · refine ⟨?_, ?_, ?_, ?_, ?_, ?_⟩
    · intro msg w1 h
      rw [hr] at h
      exact Res.noConfusion h
    · rw [hr]
      simp [Res.world, exchangeCalls]
    · intro e herr
      simp [Scan, flowEntry, hs] at herr
    · intro code1 err1 hc hx1
      have hcode : code1 = code := by
        simp [Scan, flowEntry, hs] at hc
        exact hc.symm
      subst hcode
      rw [hx] at hx1
      injection hx1 with herr
      subst herr
      exact ⟨_, hr, by simp [exchangeCalls]⟩
    · intro tok w1 h
      rw [hr] at h
      exact Res.noConfusion h
    · intro msg w1 h
      rw [hr] at h
      injection h with hmsg hw
      subst hw
      refine ⟨rfl, by simp [saveCalls], ?_⟩
      intro e he
      simp [getClient, he, hr, Res.bind, hmsg]
  · refine ⟨?_, ?_, ?_, ?_, ?_, ?_⟩
    · intro msg w1 h
      rw [hr] at h
      exact Res.noConfusion h
    · rw [hr]
      simp [Res.world, exchangeCalls]
    · intro e herr
      simp [Scan, flowEntry, hs] at herr
    · intro code1 err1 hc hx1
      have hcode : code1 = code := by
        simp [Scan, flowEntry, hs] at hc
        exact hc.symm
      subst hcode
      rw [hx] at hx1
      exact Except.noConfusion hx1
    · intro tok1 w1 h
      rw [hr] at h
      injection h with htok hw
      subst htok
      subst hw
      exact ⟨code, by simp [Scan, flowEntry, hs], hx, by simp [exchangeCalls]⟩
    · intro msg w1 h
      rw [hr] at h
      exact Res.noConfusion h

/-! ## The client -/

@[simp]
theorem bind_ret {α β : Type} (a : α) (w : World) (k : α → World → Res β) :
    (Res.ret a w).bind k = k a w := rfl

@[simp]
theorem bind_fatal {α β : Type} (msg : String) (w : World) (k : α → World → Res β) :
    (Res.fatal msg w : Res α).bind k = .fatal msg w := rfl

/-- Returning a value at the end does not change the world a call ends in. -/
theorem world_bind_ret {α β : Type} (r : Res α) (b : β) :
    (r.bind fun _ w => .ret b w).world = r.world := by
  cases r <;> rfl

/-- The trace of the flow: it is entered once, and `saveToken` is not called. -/
theorem getTokenFromWeb_trace (env : Env) (config : Config) (w : World) :
    flowCalls (getTokenFromWeb env config w).world.trace = flowCalls w.trace ++ [config] ∧
    saveCalls (getTokenFromWeb env config w).world.trace = saveCalls w.trace := by
  rcases getTokenFromWeb_cases env config w with ⟨_, hr⟩ | ⟨code, rest, err, _, _, hr⟩ |
    ⟨code, rest, tok, _, _, hr⟩ <;>
  · rw [hr]
    simp [Res.world, flowCalls, saveCalls]

/-- With a cache that loads, `getClient` is bound to the cached record and
changes nothing: no flow, no save, no print. -/
theorem getClient_of_cached (env : Env) (config : Config) (w : World) (tok : Token)
    (h : tokenFromFile env "token.json" w = .ok tok) :
    getClient env config w = .ret ⟨config, tok⟩ w := by
  simp [getClient, h]

/-- With a cache that does not load, `getClient` is the flow, then the save,
then the client of the flow's token. -/
theorem getClient_of_missing (env : Env) (config : Config) (w : World) (e : String)
    (h : tokenFromFile env "token.json" w = .error e) :
    getClient env config w
      = (getTokenFromWeb env config w).bind fun tok w =>
          (saveToken env "token.json" tok w).bind fun _ w => .ret ⟨config, tok⟩ w := by
  simp [getClient, h]

/-- C2: when `tokenFromFile("token.json")` returns an error, `getClient` enters
`getTokenFromWeb` exactly once; and when that flow returns a token, `getClient`
calls `saveToken` exactly once, on `token.json` with that token, the client it
returns is built from that token, and it does return one when the file can be
opened. -/
theorem getClient_bootstrap (env : Env) (config : Config) (w : World) (e : String)
    (h : tokenFromFile env "token.json" w = .error e) :
    flowCalls (getClient env config w).world.trace = flowCalls w.trace ++ [config] ∧
    ∀ tok w1, getTokenFromWeb env config w = .ret tok w1 →
      saveCalls (getClient env config w).world.trace
        = saveCalls w.trace ++ [("token.json", tok)] ∧
      (∀ c w2, getClient env config w = .ret c w2 → c = ⟨config, tok⟩) ∧
      ("token.json" ∉ w.readOnly → ∃ w2, getClient env config w = .ret ⟨config, tok⟩ w2) := by
  have htr := getTokenFromWeb_trace env config w
  rw [getClient_of_missing env config w e h]
  cases hflow : getTokenFromWeb env config w with
  | fatal msg w1 =>
    rw [hflow] at htr
    refine ⟨by simpa [Res.bind, Res.world] using htr.1, ?_⟩
    intro tok w2 hret
    exact Res.noConfusion hret
  | panic msg w1 =>
    rw [hflow] at htr
    refine ⟨by simpa [Res.bind, Res.world] using htr.1, ?_⟩
    intro tok w2 hret
    exact Res.noConfusion hret
  | ret tok w1 =>
    rw [hflow] at htr
    simp only [Res.world] at htr
    have hsave := saveToken_trace env "token.json" tok w1
    have hro : w1.readOnly = w.readOnly := by
      rcases getTokenFromWeb_cases env config w with ⟨_, hr⟩ | ⟨_, _, _, _, _, hr⟩ |
        ⟨_, _, _, _, _, hr⟩
      · rw [hr] at hflow
        exact Res.noConfusion hflow
      · rw [hr] at hflow
        exact Res.noConfusion hflow
      · rw [hr] at hflow
        injection hflow with _ hw
        rw [← hw]
        rfl
    refine ⟨?_, ?_⟩
    · rw [bind_ret, world_bind_ret, hsave, flowCalls_append, htr.1]
      simp [flowCalls]
    · intro tok1 w2 hret
      injection hret with htok hw
      subst htok
      subst hw
      refine ⟨?_, ?_, ?_⟩
      · rw [bind_ret, world_bind_ret, hsave, saveCalls_append, htr.2]
        simp [saveCalls]
      · intro c w3 hc
        rw [bind_ret] at hc
        cases hs : saveToken env "token.json" tok w1 with
        | ret u w4 =>
          rw [hs, bind_ret] at hc
          injection hc with hc1 _
          exact hc1.symm
        | fatal msg w4 =>
          rw [hs] at hc
          exact Res.noConfusion hc
        | panic msg w4 =>
          rw [hs] at hc
          exact Res.noConfusion hc
      · intro hopen
        rw [← hro] at hopen
        rw [bind_ret, saveToken_of_writable env "token.json" tok w1 hopen, bind_ret]
        exact ⟨_, rfl⟩

/-- C2 at a fresh machine: no `token.json`, the code `code1` on the console. -/
theorem getClient_bootstrap_witness :
    tokenFromFile demoEnv "token.json" world0
      = .error "open token.json: no such file or directory" ∧
    flowCalls (getClient demoEnv cfg1 world0).world.trace = flowCalls world0.trace ++ [cfg1] ∧
    ∀ tok w1, getTokenFromWeb demoEnv cfg1 world0 = .ret tok w1 →
      saveCalls (getClient demoEnv cfg1 world0).world.trace
        = saveCalls world0.trace ++ [("token.json", tok)] ∧
      (∀ c w2, getClient demoEnv cfg1 world0 = .ret c w2 → c = ⟨cfg1, tok⟩) ∧
      ("token.json" ∉ world0.readOnly →
        ∃ w2, getClient demoEnv cfg1 world0 = .ret ⟨cfg1, tok⟩ w2) :=
  ⟨rfl, getClient_bootstrap demoEnv cfg1 world0 _ rfl⟩

/-- The second call after a save that went through: when the first call ran the
flow and the serialization of its token fitted on the disk and decodes back,
the second call runs no flow, calls no save and is bound to the same record. -/
theorem getClient_twice_of_saved (env : Env) (config : Config) (w : World) (e : String)
    (tok : Token) (w1 : World) (b : List Char)
    (h : tokenFromFile env "token.json" w = .error e)
    (hflow : getTokenFromWeb env config w = .ret tok w1)
    (hopen : "token.json" ∉ w1.readOnly) (hm : env.marshal tok = .ok b)
    (hfit : b.length + 1 ≤ w1.space) (hdec : env.unmarshal (b ++ ['\n']) = .ok tok) :
    ∃ w2, getClient env config w = .ret ⟨config, tok⟩ w2 ∧
      getClient env config w2 = .ret ⟨config, tok⟩ w2 := by
  obtain ⟨w2, hsave, hload⟩ := saveToken_tokenFromFile env "token.json" tok w1 b hopen hm hfit hdec
  refine ⟨w2, ?_, getClient_of_cached env config w2 tok hload⟩
  rw [getClient_of_missing env config w e h, hflow]
  simp [Res.bind, hsave]

/-- Two calls on the fresh machine: the second is bound to the record of the
first and changes nothing. -/
theorem getClient_twice_world0 :
    ∃ w2, getClient demoEnv cfg1 world0 = .ret ⟨cfg1, tokA1⟩ w2 ∧
      getClient demoEnv cfg1 w2 = .ret ⟨cfg1, tokA1⟩ w2 :=
  getClient_twice_of_saved demoEnv cfg1 world0 _ tokA1 _ jsonA1 rfl rfl (by decide) rfl
    (by decide) rfl

/-- C3, at its failing input: `token.json` absent and ten bytes of disk left.
The first `getClient` returns a client; the save it made was cut short, so the
second `getClient` runs the authorization flow again and calls `saveToken`
again. -/
theorem getClient_twice_reruns_flow :
    ∃ c1 w1 c2 w2, getClient demoEnv cfg1 lowDisk = .ret c1 w1 ∧
      getClient demoEnv cfg1 w1 = .ret c2 w2 ∧
      w2.trace = w1.trace ++
        [.flow cfg1, .exchange cfg1 "code1", .save "token.json" tokA1] :=
  ⟨_, _, _, _, rfl, rfl, by decide⟩

/-- C5, as the claim states it, fails: the cached record has expired and its
refresh token is good; the client of `getClient` renews it for the request
(`a2` goes out), no `saveToken` is called, and `token.json` still holds the old
record. -/
theorem refresh_not_persisted :
    getClient demoEnv cfg1 expiredCache = .ret ⟨cfg1, tokA1⟩ expiredCache ∧
    tokA1.Expiry < expiredCache.now ∧
    ∃ w1, Client.Do demoEnv ⟨cfg1, tokA1⟩ expiredCache = ((⟨cfg1, tokA2⟩, .ok "a2"), w1) ∧
      w1.trace = [.refresh cfg1 "r1", .request "a2"] ∧
      w1.readFile "token.json" = some (jsonA1 ++ ['\n']) ∧
      w1.readFile "token.json" ≠ some (jsonA2 ++ ['\n']) :=
  ⟨rfl, by decide, _, rfl, by decide, by decide, by decide⟩

/-- C5, amended: `saveToken` is called after the initial acquisition and at no
other time.  When `token.json` loads, `getClient` returns the client of the
cached record, whatever its expiry, and calls no save; when it does not load and
the flow issues a token, `getClient` calls `saveToken` once, with that token; a
request through a client, a refresh included, calls no save and leaves every
file as it was. -/
theorem save_only_after_acquisition (env : Env) (config : Config) (w : World) :
    (∀ tok, tokenFromFile env "token.json" w = .ok tok →
      getClient env config w = .ret ⟨config, tok⟩ w) ∧
    (∀ e tok w1, tokenFromFile env "token.json" w = .error e →
      getTokenFromWeb env config w = .ret tok w1 →
      saveCalls (getClient env config w).world.trace
        = saveCalls w.trace ++ [("token.json", tok)]) ∧
    (∀ c : Client, (Client.Do env c w).2.files = w.files ∧
      saveCalls (Client.Do env c w).2.trace = saveCalls w.trace) := by
  refine ⟨fun tok h => getClient_of_cached env config w tok h, ?_, ?_⟩
  · intro e tok w1 h hflow
    have htr := getTokenFromWeb_trace env config w
    rw [hflow] at htr
    simp only [Res.world] at htr
    have hsave := saveToken_trace env "token.json" tok w1
    rw [getClient_of_missing env config w e h, hflow]
    simp only [Res.bind]
    cases hs : saveToken env "token.json" tok w1 with
    | ret u w2 =>
      rw [hs] at hsave
      simp only [Res.world] at hsave ⊢
      rw [hsave, saveCalls_append, htr.2]
      simp [saveCalls]
    | fatal msg w2 =>
      rw [hs] at hsave
      simp only [Res.world] at hsave ⊢
      rw [hsave, saveCalls_append, htr.2]
      simp [saveCalls]
    | panic msg w2 =>
      rw [hs] at hsave
      simp only [Res.world] at hsave ⊢
      rw [hsave, saveCalls_append, htr.2]
      simp [saveCalls]
  · intro c
    unfold Client.Do
    by_cases hv : c.tok.Valid w.now = true
    · simp [hv, saveCalls]
    · by_cases hr : c.tok.RefreshToken = ""
      · simp [hv, hr]
      · cases hg : env.refreshGrant c.config c.tok.RefreshToken w.now with
        | error err => simp [hv, hr, hg, saveCalls]
        | ok tok => simp [hv, hr, hg, saveCalls]

/-! ## The Drive calls of `main` -/

/-- Every error return of `getDriveService` carries a nil service. -/
theorem getDriveService_error_nil (env : Env) (w w1 : World) (srv : Option Service)
    (err : String) (h : getDriveService env w = .ret (srv, some err) w1) : srv = none := by
  unfold getDriveService at h
  cases hread : w.readFile "credentials.json" with
  | none =>
    simp only [hread] at h
    injection h with h1 _
    exact (congrArg Prod.fst h1).symm
  | some b =>
    simp only [hread] at h
    cases hcfg : env.configFromJSON b with
    | error e1 =>
      simp only [hcfg] at h
      injection h with h1 _
      exact (congrArg Prod.fst h1).symm
    | ok config =>
      simp only [hcfg] at h
      cases hcl : getClient env config w with
      | fatal msg w2 =>
        rw [hcl] at h
        exact Res.noConfusion h
      | panic msg w2 =>
        rw [hcl] at h
        exact Res.noConfusion h
      | ret client w2 =>
        rw [hcl, bind_ret] at h
        cases hsv : env.newService client with
        | error e1 =>
          simp only [hsv] at h
          injection h with h1 _
          exact (congrArg Prod.fst h1).symm
        | ok service =>
          simp only [hsv] at h
          injection h with h1 _
          have h2 := congrArg Prod.snd h1
          simp at h2

/-- What `main` does with an error of `getDriveService`: it calls
`getFolderLink` on the nil service and dies there of the nil dereference. -/
theorem main_of_service_error (env : Env) (w w1 : World) (srv : Option Service)
    (err : String) (h : getDriveService env w = .ret (srv, some err) w1) :
    main env w = .panic nilDereference w1 := by
  have hnil := getDriveService_error_nil env w w1 srv err h
  subst hnil
  simp [main, h, getFolderLink, Res.bind]

/-- C6, at its failing input: no `credentials.json`.  The function `getDriveService`
returns a nil service and an error; `main` does not stop there: it goes on to
`getFolderLink` with the nil service and the process dies of a nil dereference. -/
theorem main_continues_with_nil_service :
    ∃ w1, getDriveService demoEnv world0
        = .ret (none, some "open credentials.json: no such file or directory") w1 ∧
      getFolderLink demoEnv none w1 = .panic nilDereference w1 ∧
      main demoEnv world0 = .panic nilDereference w1 :=
  ⟨_, rfl, rfl, rfl⟩

/-- The pieces of a split end in a piece without the separator: the whole
string when it holds no separator, otherwise what follows the last one. -/
theorem splitChars_last (sep : Char) (s : List Char) :
    ∃ init last, splitChars sep s = init ++ [last] ∧ sep ∉ last ∧
      ((sep ∉ s ∧ last = s) ∨ ∃ pre, s = pre ++ sep :: last) := by
  induction s with
  | nil => exact ⟨[], [], rfl, by simp, Or.inl ⟨by simp, rfl⟩⟩
  | cons c rest ih =>
    obtain ⟨init, last, hsplit, hlast, hshape⟩ := ih
    by_cases hc : c = sep
    · refine ⟨[] :: init, last, by simp [splitChars, hc, hsplit], hlast, Or.inr ?_⟩
      rcases hshape with ⟨_, hl⟩ | ⟨pre, hpre⟩
      · exact ⟨[], by simp [hc, hl]⟩
      · exact ⟨c :: pre, by simp [hpre]⟩
    · cases init with
      | nil =>
        refine ⟨[], c :: last, by simp [splitChars, hc, hsplit], ?_, ?_⟩
        · simp only [List.mem_cons, not_or]
          exact ⟨fun e => hc e.symm, hlast⟩
        · rcases hshape with ⟨hno, hl⟩ | ⟨pre, hpre⟩
          · refine Or.inl ⟨?_, by rw [hl]⟩
            simp only [List.mem_cons, not_or]
            exact ⟨fun e => hc e.symm, hno⟩
          · exfalso
            have hlen := congrArg List.length (hsplit)
            have hmem : sep ∈ rest := by rw [hpre]; simp
            have : ∀ t : List Char, sep ∈ t → 2 ≤ (splitChars sep t).length := by
              intro t
              induction t with
              | nil => simp
              | cons d t iht =>
                intro hd
                by_cases hds : d = sep
                · have hpos : 1 ≤ (splitChars sep t).length := by
                    cases t with
                    | nil => simp [splitChars]
                    | cons x t1 =>
                      simp only [splitChars]
                      split
                      · simp
                      · split <;> simp
                  simp only [splitChars, hds, if_true, List.length_cons]
                  omega
                · have hin : sep ∈ t := by
                    rcases List.mem_cons.mp hd with h1 | h1
                    · exact absurd h1.symm hds
                    · exact h1
                  have h2 := iht hin
                  simp only [splitChars, hds, if_false]
                  split
                  · rename_i heq
                    rw [heq] at h2
                    simp at h2
                  · rename_i heq
                    rw [heq] at h2
                    simpa using h2
            have h2 := this rest hmem
            rw [hsplit] at h2
            simp at h2
      | cons piece pieces =>
        refine ⟨(c :: piece) :: pieces, last, by simp [splitChars, hc, hsplit], hlast, ?_⟩
        rcases hshape with ⟨hno, hl⟩ | ⟨pre, hpre⟩
        · exfalso
          have : ∀ t : List Char, sep ∉ t → splitChars sep t = [t] := by
            intro t
            induction t with
            | nil => intro _; rfl
            | cons d t iht =>
              intro hd
              simp only [List.mem_cons, not_or] at hd
              have hds : ¬ d = sep := fun e => hd.1 e.symm
              simp [splitChars, hds, iht hd.2]
          have h2 := this rest hno
          rw [hsplit] at h2
          have h3 := congrArg List.length h2
          simp at h3
        · exact Or.inr ⟨c :: pre, by simp [hpre]⟩

/-- The last piece of a split on `/`: the split is not empty, the index
`len - 1` is in range, and the piece there holds no `/` and is the whole string
when that holds no `/`, otherwise what follows its last `/`. -/
theorem Split_last (folderLink : String) :
    Split folderLink '/' ≠ [] ∧
    ∃ folderID, index (Split folderLink '/') (((Split folderLink '/').length : Int) - 1)
        = some folderID ∧
      '/' ∉ folderID.data ∧
      (('/' ∉ folderLink.data ∧ folderID = folderLink) ∨
        ∃ pre, folderLink.data = pre ++ '/' :: folderID.data) := by
  obtain ⟨init, last, hsplit, hlast, hshape⟩ := splitChars_last '/' folderLink.data
  have hS : Split folderLink '/' = init.map String.mk ++ [String.mk last] := by
    simp [Split, hsplit]
  refine ⟨by simp [hS], String.mk last, ?_, hlast, ?_⟩
  · rw [hS]
    have hlen : (((init.map String.mk ++ [String.mk last]).length : Nat) : Int) - 1
        = (init.length : Int) := by
      simp
    rw [hlen]
    simp [index]
  · rcases hshape with ⟨hno, hl⟩ | ⟨pre, hpre⟩
    · exact Or.inl ⟨hno, by rw [hl]⟩
    · exact Or.inr ⟨pre, hpre⟩

/-- The function `getClient` never panics. -/
theorem getClient_no_panic (env : Env) (config : Config) (w : World) (msg : String)
    (w1 : World) : getClient env config w ≠ .panic msg w1 := by
  intro hp
  cases hload : tokenFromFile env "token.json" w with
  | ok tok =>
    rw [getClient_of_cached env config w tok hload] at hp
    exact Res.noConfusion hp
  | error e =>
    rw [getClient_of_missing env config w e hload] at hp
    rcases getTokenFromWeb_cases env config w with ⟨_, hr⟩ | ⟨_, _, _, _, _, hr⟩ |
      ⟨_, _, tok, _, _, hr⟩
    · rw [hr] at hp
      exact Res.noConfusion hp
    · rw [hr] at hp
      exact Res.noConfusion hp
    · rw [hr, bind_ret] at hp
      cases hs : saveToken env "token.json" tok _ with
      | ret u w2 =>
        rw [hs] at hp
        exact Res.noConfusion hp
      | fatal m w2 =>
        rw [hs] at hp
        exact Res.noConfusion hp
      | panic m w2 => exact saveToken_no_panic env "token.json" tok _ m w2 hs

/-- The function `getDriveService` never panics. -/
theorem getDriveService_no_panic (env : Env) (w : World) (msg : String) (w1 : World) :
    getDriveService env w ≠ .panic msg w1 := by
  intro hp
  unfold getDriveService at hp
  cases hread : w.readFile "credentials.json" with
  | none =>
    simp only [hread] at hp
    exact Res.noConfusion hp
  | some b =>
    simp only [hread] at hp
    cases hcfg : env.configFromJSON b with
    | error e =>
      simp only [hcfg] at hp
      exact Res.noConfusion hp
    | ok config =>
      simp only [hcfg] at hp
      cases hcl : getClient env config w with
      | fatal m w2 =>
        rw [hcl] at hp
        exact Res.noConfusion hp
      | panic m w2 => exact getClient_no_panic env config w m w2 hcl
      | ret client w2 =>
        rw [hcl, bind_ret] at hp
        cases hsv : env.newService client with
        | error e =>
          simp only [hsv] at hp
          exact Res.noConfusion hp
        | ok service =>
          simp only [hsv] at hp
          exact Res.noConfusion hp

/-- The only panic of `getFolderLink` is the nil dereference. -/
theorem getFolderLink_panic_msg (env : Env) (service : Option Service) (w w1 : World)
    (msg : String) (h : getFolderLink env service w = .panic msg w1) :
    msg = nilDereference := by
  unfold getFolderLink at h
  cases service with
  | none =>
    simp only [Res.panic.injEq] at h
    exact h.1.symm
  | some s =>
    simp only at h
    cases hrec : (env.filesGetDo s "12MJM0cOQUXbrP3pyaX-hVe22U6yJY27T").1 with
    | none =>
      simp only [hrec, Res.panic.injEq] at h
      exact h.1.symm
    | some f =>
      simp only [hrec] at h
      exact Res.noConfusion h

/-- The only panic of `GetAllFiles` is the nil dereference. -/
theorem GetAllFiles_panic_msg (env : Env) (srv : Option Service) (folderID : String)
    (w w1 : World) (msg : String) (h : GetAllFiles env srv folderID w = .panic msg w1) :
    msg = nilDereference := by
  unfold GetAllFiles at h
  cases srv with
  | none =>
    simp only [Res.panic.injEq] at h
    exact h.1.symm
  | some s =>
    simp only at h
    cases hdo : env.filesListDo s ("parents in '" ++ folderID ++ "' and trashed=false") with
    | error e =>
      simp only [hdo] at h
      exact Res.noConfusion h
    | ok files =>
      simp only [hdo] at h
      exact Res.noConfusion h

/-- C9: the extraction of the folder id in `main` is safe and exact.  No run of
`main` dies of an index out of range.  And whenever `main` gets a `folderLink`
from `getFolderLink`, whatever string that is, the split of it on `/` is not
empty, the index `len(splits)-1` is in range, the `folderID` read there holds
no `/` and is `folderLink` itself when that holds no `/`, otherwise what follows
the last `/` of `folderLink`; and that `folderID` is what `main` goes on to call
`GetAllFiles` with. -/
theorem main_folderID_safe_exact (env : Env) (w : World) :
    (∀ w1, main env w ≠ .panic "runtime error: index out of range [-1]" w1) ∧
    (∀ r w1 folderLink w2, getDriveService env w = .ret r w1 →
      getFolderLink env r.1 w1 = .ret folderLink w2 →
      Split folderLink '/' ≠ [] ∧
      ∃ folderID,
        index (Split folderLink '/') (((Split folderLink '/').length : Int) - 1)
          = some folderID ∧
        '/' ∉ folderID.data ∧
        (('/' ∉ folderLink.data ∧ folderID = folderLink) ∨
          ∃ pre, folderLink.data = pre ++ '/' :: folderID.data) ∧
        main env w = (GetAllFiles env r.1 folderID w2).bind fun _ w => .ret () w) := by
  have hne : nilDereference ≠ "runtime error: index out of range [-1]" := by decide
  constructor
  · intro w1 hp
    unfold main at hp
    cases hds : getDriveService env w with
    | fatal m w2 =>
      rw [hds] at hp
      exact Res.noConfusion hp
    | panic m w2 => exact getDriveService_no_panic env w m w2 hds
    | ret r w2 =>
      rw [hds, bind_ret] at hp
      simp only at hp
      cases hfl : getFolderLink env r.1 w2 with
      | fatal m w3 =>
        rw [hfl] at hp
        exact Res.noConfusion hp
      | panic m w3 =>
        rw [hfl] at hp
        have hm := getFolderLink_panic_msg env r.1 w2 w3 m hfl
        simp only [Res.bind, Res.panic.injEq] at hp
        exact hne (hm.symm.trans hp.1)
      | ret link w3 =>
        rw [hfl, bind_ret] at hp
        obtain ⟨_, folderID, hidx, _, _⟩ := Split_last link
        simp only [hidx] at hp
        cases hga : GetAllFiles env r.1 folderID w3 with
        | ret fs w4 =>
          rw [hga] at hp
          exact Res.noConfusion hp
        | fatal m w4 =>
          rw [hga] at hp
          exact Res.noConfusion hp
        | panic m w4 =>
          rw [hga] at hp
          have hm := GetAllFiles_panic_msg env r.1 folderID w3 w4 m hga
          simp only [Res.bind, Res.panic.injEq] at hp
          exact hne (hm.symm.trans hp.1)
  · intro r w1 folderLink w2 hds hfl
    obtain ⟨hnonempty, folderID, hidx, hno, hshape⟩ := Split_last folderLink
    refine ⟨hnonempty, folderID, hidx, hno, hshape, ?_⟩
    unfold main
    rw [hds, bind_ret]
    simp only
    rw [hfl, bind_ret]
    simp only [hidx]

/-- C9 on a machine with a `credentials.json`: `main` gets the link of
`folder1`, reads its last piece and lists the files of that folder. -/
theorem main_folderID_witness :
    index (Split folder1.WebViewLink '/')
        (((Split folder1.WebViewLink '/').length : Int) - 1)
      = some "12MJM0cOQUXbrP3pyaX-hVe22U6yJY27T" ∧
    (main demoEnv worldCred).world.trace.getLast?
      = some (.filesList "parents in '12MJM0cOQUXbrP3pyaX-hVe22U6yJY27T' and trashed=false") ∧
    ∃ r w1 folderLink w2, getDriveService demoEnv worldCred = .ret r w1 ∧
      getFolderLink demoEnv r.1 w1 = .ret folderLink w2 ∧
      ∃ folderID,
        index (Split folderLink '/') (((Split folderLink '/').length : Int) - 1)
          = some folderID ∧
        '/' ∉ folderID.data ∧
        (('/' ∉ folderLink.data ∧ folderID = folderLink) ∨
          ∃ pre, folderLink.data = pre ++ '/' :: folderID.data) ∧
        main demoEnv worldCred
          = (GetAllFiles demoEnv r.1 folderID w2).bind fun _ w => .ret () w :=
  ⟨by decide, by decide, _, _, _, _, rfl, rfl,
    ((main_folderID_safe_exact demoEnv worldCred).2 _ _ _ _ rfl rfl).2⟩

/-- C10: `getFolderLink` on a service returns a string exactly when the remote
`Get` yields a record, and the string is then the record's `WebViewLink`.  When
the `Get` yields no record, the function prints the error (nothing when the
error is nil too) and then dies of the nil dereference at `fileLink.WebViewLink`:
it returns nothing, neither an empty string nor an error. -/
theorem getFolderLink_spec (env : Env) (s : Service) (w : World) :
    (∀ f, (env.filesGetDo s "12MJM0cOQUXbrP3pyaX-hVe22U6yJY27T").1 = some f →
      ∃ w1, getFolderLink env (some s) w = .ret f.WebViewLink w1) ∧
    (∀ link w1, getFolderLink env (some s) w = .ret link w1 →
      ∃ f, (env.filesGetDo s "12MJM0cOQUXbrP3pyaX-hVe22U6yJY27T").1 = some f ∧
        link = f.WebViewLink) ∧
    ((env.filesGetDo s "12MJM0cOQUXbrP3pyaX-hVe22U6yJY27T").1 = none →
      ∃ w1, getFolderLink env (some s) w = .panic nilDereference w1 ∧
        w1.files = w.files ∧
        w1.stdout = w.stdout ++
          (match (env.filesGetDo s "12MJM0cOQUXbrP3pyaX-hVe22U6yJY27T").2 with
            | some e => ["Could not get folder link: " ++ e ++ "\n"]
            | none => [])) := by
  have key : ∀ fileLink err,
      env.filesGetDo s "12MJM0cOQUXbrP3pyaX-hVe22U6yJY27T" = (fileLink, err) →
      getFolderLink env (some s) w
        = match fileLink with
          | none => .panic nilDereference (getEntry err w)
          | some f =>
            .ret f.WebViewLink ((getEntry err w).print ("FileLink " ++ f.WebViewLink ++ "\n")) := by
    intro fileLink err h
    simp only [getFolderLink, h, getEntry]
  cases hdo : env.filesGetDo s "12MJM0cOQUXbrP3pyaX-hVe22U6yJY27T" with
  | mk fileLink err =>
    rw [key fileLink err hdo]
    cases fileLink with
    | none =>
      refine ⟨?_, ?_, ?_⟩
      · intro f hf
        simp at hf
      · intro link w1 h
        exact Res.noConfusion h
      · intro _
        refine ⟨_, rfl, ?_, ?_⟩
        · cases err <;> rfl
        · cases err with
          | none => simp [getEntry]
          | some e => simp [getEntry, World.print]
    | some f =>
      refine ⟨?_, ?_, ?_⟩
      · intro f1 hf
        simp only [Option.some.injEq] at hf
        subst hf
        exact ⟨_, rfl⟩
      · intro link w1 h
        simp only [Res.ret.injEq] at h
        exact ⟨f, rfl, h.1.symm⟩
      · intro h
        simp at h

end GoogleDriveAPI
